import Mathlib

/-!
Verification of the import/dependency legality engine of the
subsystem-architecture checker.

Python strings are modelled as lists of characters (`Str := List Char`),
filesystem paths as lists of path segments (`FsPath := List Str`), mirroring
`pathlib.PurePosixPath.parts`.  The filesystem visible to the checker is
modelled by a `World`: the set of directories carrying a `dependencies.json`
manifest (with their parsed contents) and the set of existing files.

Each definition below is a direct translation of the correspondingly named
function of the source (`src/utils/import_utils.py`, `src/rules/import_rules.py`,
`src/rules/subsystem_rules.py`, `src/utils/exception_handler.py`,
`src/utils/file_utils.py`, `src/shared/typescript_parser.py`).
-/

set_option maxHeartbeats 1000000

/-- Python strings, modelled as lists of characters. -/
abbrev Str := List Char

/-- Shorthand turning a Lean string literal into the char-list model. -/
def str (s : String) : Str := s.toList

/-- Python `s.startswith(pre)`. -/
def startsWith (s pre : Str) : Bool := pre.isPrefixOf s

/-- Python `s.endswith('/')`: the last character is a slash. -/
def endsSlash (s : Str) : Bool :=
  match s.getLast? with
  | some c => c = '/'
  | none => false

/-- Python `s.rstrip('/')`: remove every trailing slash. -/
def rstripSlash : Str → Str
  | [] => []
  | c :: rest =>
    let r := rstripSlash rest
    if r = [] then (if c = '/' then [] else [c]) else c :: r

/-- Python `s.split(sep)` for a single-character separator `sep`. -/
def splitOnChar (sep : Char) : Str → List Str
  | [] => [[]]
  | c :: rest =>
    if c = sep then [] :: splitOnChar sep rest
    else
      match splitOnChar sep rest with
      | [] => [[c]]
      | s :: ss => (c :: s) :: ss

/-- Python `pat in s` (substring containment), for `pat` a fixed pattern. -/
def containsSeq (s pat : Str) : Bool :=
  pat.isPrefixOf s ||
    match s with
    | [] => false
    | _ :: rest => containsSeq rest pat

/-- Fuel-driven worker for `splitOnSeq` (Python `s.split(pat)` for a
multi-character separator: leftmost non-overlapping occurrences). -/
def splitOnSeqFuel (pat : Str) : Nat → Str → Str → List Str
  | 0, acc, s => [acc.reverse ++ s]
  | fuel + 1, acc, s =>
    if pat ≠ [] && pat.isPrefixOf s then
      acc.reverse :: splitOnSeqFuel pat fuel [] (s.drop pat.length)
    else
      match s with
      | [] => [acc.reverse]
      | c :: rest => splitOnSeqFuel pat fuel (c :: acc) rest

/-- Python `s.split(pat)` for a multi-character separator. -/
def splitOnSeq (pat s : Str) : List Str := splitOnSeqFuel pat (s.length + 1) [] s

/-- A well-formed single path segment: non-empty, not `.` and slash-free
(the shapes `pathlib` produces as `parts`). -/
def isSeg (x : Str) : Bool := x ≠ [] && x ≠ str "." && x.all (fun c => c ≠ '/')

/-- Filesystem paths, as their `pathlib` part lists. -/
abbrev FsPath := List Str

/-- Python `str(path)` / `"/".join(parts)`. -/
def joinSegs : List Str → Str
  | [] => []
  | [s] => s
  | s :: rest => s ++ '/' :: joinSegs rest

/-- `Path(base) / tail` for a raw string `tail`: split on slashes and drop
empty and `.` components, as `pathlib` normalisation does. -/
def pathSegs (t : Str) : List Str :=
  (splitOnChar '/' t).filter (fun s => s ≠ [] && s ≠ str ".")

/- ### Basic lemmas about the string model -/

theorem startsWith_iff {s pre : Str} : startsWith s pre = true ↔ pre <+: s := by
  simp [startsWith]

theorem startsWith_append (pre rest : Str) : startsWith (pre ++ rest) pre = true := by
  simp [startsWith]

theorem not_startsWith_of_length_lt {s pre : Str} (h : s.length < pre.length) :
    startsWith s pre = false := by
  rcases Bool.eq_false_or_eq_true (startsWith s pre) with hb | hb
  · exact absurd (startsWith_iff.mp hb).length_le (by omega)
  · exact hb

/-- A slash-free segment followed by a slash determines itself: the prefix
relation between two `seg ++ '/' :: rest` shapes forces the segments equal. -/
theorem seg_slash_prefix_iff {a b u v : Str}
    (ha : ∀ c ∈ a, c ≠ '/') (hb : ∀ c ∈ b, c ≠ '/') :
    ((a ++ '/' :: u) <+: (b ++ '/' :: v)) ↔ (a = b ∧ u <+: v) := by
  induction a generalizing b with
  | nil =>
    cases b with
    | nil => simp
    | cons d b' =>
      simp only [List.nil_append]
      constructor
      · intro h
        have : d = '/' := by
          rcases h with ⟨t, ht⟩
          have := congrArg (fun l => l.head?) ht
          simpa using this.symm
        exact absurd this (hb d (by simp))
      · rintro ⟨h, -⟩
        exact absurd h (by simp)
  | cons c a' ih =>
    cases b with
    | nil =>
      simp only [List.nil_append]
      constructor
      · intro h
        have : c = '/' := by
          rcases h with ⟨t, ht⟩
          have := congrArg (fun l => l.head?) ht
          simpa using this
        exact absurd this (ha c (by simp))
      · rintro ⟨h, -⟩
        exact absurd h (by simp)
    | cons d b' =>
      simp only [List.cons_append, List.cons_prefix_cons]
      rw [ih (fun x hx => ha x (by simp [hx])) (fun x hx => hb x (by simp [hx]))]
      constructor
      · rintro ⟨rfl, rfl, h⟩; exact ⟨rfl, h⟩
      · rintro ⟨h, hu⟩
        injection h with h1 h2
        exact ⟨h1, by rw [h2]; exact ⟨rfl, hu⟩⟩

theorem slashFree_of_isSeg {x : Str} (h : isSeg x = true) : ∀ c ∈ x, c ≠ '/' := by
  have := (by simpa [isSeg, List.all_eq_true] using h :
    (x ≠ [] ∧ x ≠ str ".") ∧ ∀ c ∈ x, decide (c ≠ '/') = true)
  intro c hc
  simpa using this.2 c hc

theorem ne_nil_of_isSeg {x : Str} (h : isSeg x = true) : x ≠ [] := by
  have := (by simpa [isSeg] using h :
    (x ≠ [] ∧ x ≠ str ".") ∧ x.all (fun c => decide (c ≠ '/')) = true)
  exact this.1.1

theorem ne_dot_of_isSeg {x : Str} (h : isSeg x = true) : x ≠ str "." := by
  have := (by simpa [isSeg] using h :
    (x ≠ [] ∧ x ≠ str ".") ∧ x.all (fun c => decide (c ≠ '/')) = true)
  exact this.1.2

theorem splitOnChar_free {sep : Char} {a : Str} (h : ∀ c ∈ a, c ≠ sep) :
    splitOnChar sep a = [a] := by
  induction a with
  | nil => rfl
  | cons c rest ih =>
    have hc : c ≠ sep := h c (by simp)
    rw [splitOnChar, if_neg hc, ih (fun x hx => h x (by simp [hx]))]

theorem splitOnChar_append_sep {sep : Char} {a rest : Str} (h : ∀ c ∈ a, c ≠ sep) :
    splitOnChar sep (a ++ sep :: rest) = a :: splitOnChar sep rest := by
  induction a with
  | nil => simp [splitOnChar]
  | cons c a' ih =>
    have hc : c ≠ sep := h c (by simp)
    rw [List.cons_append, splitOnChar, if_neg hc,
      ih (fun x hx => h x (by simp [hx]))]

theorem pathSegs_single {x : Str} (h : isSeg x = true) : pathSegs x = [x] := by
  rw [pathSegs, splitOnChar_free (slashFree_of_isSeg h)]
  simp [List.filter, ne_nil_of_isSeg h, ne_dot_of_isSeg h]

theorem pathSegs_append_sep {x rest : Str} (h : isSeg x = true) :
    pathSegs (x ++ '/' :: rest) = x :: pathSegs rest := by
  rw [pathSegs, splitOnChar_append_sep (slashFree_of_isSeg h)]
  simp [pathSegs, List.filter, ne_nil_of_isSeg h, ne_dot_of_isSeg h]

/- ### The subsystem world: manifests and files -/

/-- Parsed contents of a `dependencies.json` manifest.  Missing keys read as
empty lists (Python `dict.get(key, [])`). -/
structure Deps where
  allowed : List Str
  allowedChildren : List Str
  childSubsystems : List Str
  deriving DecidableEq

/-- The empty manifest (also the result of loading a malformed one). -/
def Deps.empty : Deps := ⟨[], [], []⟩

/-- The filesystem as the checker observes it: which directories carry a
`dependencies.json` (with parsed contents), and which plain files exist. -/
structure World where
  manifests : List (FsPath × Deps)
  files : List FsPath
  deriving DecidableEq

/-- Contents of the manifest at directory `p`, when `p/dependencies.json`
exists. -/
def lookupDeps (w : World) (p : FsPath) : Option Deps :=
  (w.manifests.find? (fun e => e.1 = p)).map (fun e => e.2)

/-- Python `(p / "dependencies.json").exists()`. -/
def hasDepsFile (w : World) (p : FsPath) : Bool := (lookupDeps w p).isSome

/-- Python `(p).exists()` for a plain file path. -/
def fileExists (w : World) (p : FsPath) : Bool := w.files.any (fun q => q = p)

/- ### import_utils.py -/

/-- The `~`-rooted display path of a subsystem directory, as computed at the
head of `is_import_allowed_by_set` (`src` itself maps to `~`). -/
def subsystemAbsOf (subsystemPath : FsPath) : Str :=
  if subsystemPath = [str "src"] then str "~"
  else str "~/" ++ joinSegs (subsystemPath.drop 1)

/-- The regex test `re.match(r"~/lib/domains/[^/]+/utils(?:/.*)?$", p)`. -/
def domainUtilsRegexMatch (p : Str) : Bool :=
  startsWith p (str "~/lib/domains/") &&
    match splitOnChar '/' (p.drop 14) with
    | d :: u :: _ => !(d = []) && u = str "utils"
    | _ => false

/-- The domain-utils carve-out test of `is_import_allowed_by_set`
(`src/utils/import_utils.py` lines 163-169): the two substring guards
followed by the anchored regex. -/
def matchesDomainUtilsPattern (importPath : Str) : Bool :=
  containsSeq importPath (str "/lib/domains/") &&
  containsSeq importPath (str "/utils") &&
  domainUtilsRegexMatch importPath

/-- `is_same_domain_hierarchical_import` of `src/utils/import_utils.py`. -/
def is_same_domain_hierarchical_import (importPath : Str) (subsystemPath : FsPath) : Bool :=
  if !(startsWith importPath (str "~/lib/domains/")) then false
  else
    let importParts := splitOnChar '/' importPath
    if importParts.length < 4 then false
    else
      let importDomain := importParts.getD 3 []
      let subsystemStr := joinSegs subsystemPath
      if !(containsSeq subsystemStr (str "/lib/domains/")) then false
      else
        let subsystemParts :=
          splitOnChar '/' ((splitOnSeq (str "/lib/domains/") subsystemStr).getLastD [])
        importDomain = subsystemParts.headD []

/-- Python `f"~/{p.relative_to(Path('src'))}"` for a `src`-rooted path
(`relative_to` of `src` itself prints as `.`). -/
def tildeOf (p : FsPath) : Str :=
  str "~/" ++ (if p.drop 1 = [] then str "." else joinSegs (p.drop 1))

/-- The upward walk of `import_goes_into_subsystem`: climb from the imported
path towards `src`, stopping at the first manifest-bearing directory. -/
def importGoesIntoAux (w : World) (importPath : Str) (current : FsPath) : Bool :=
  if current = [] ∨ current = [str "src"] then false
  else if hasDepsFile w current then
    let subsystemAbsPath := tildeOf current
    startsWith importPath (subsystemAbsPath ++ str "/") &&
      decide (importPath ≠ subsystemAbsPath)
  else importGoesIntoAux w importPath current.dropLast
termination_by current.length
decreasing_by
  rename_i h _
  have hne : current ≠ [] := by
    intro hc; exact h (Or.inl hc)
  calc current.dropLast.length = current.length - 1 := List.length_dropLast current
    _ < current.length := by
        cases current with
        | nil => exact absurd rfl hne
        | cons c rest => simp

/-- `import_goes_into_subsystem` of `src/utils/import_utils.py`. -/
def import_goes_into_subsystem (w : World) (importPath : Str) : Bool :=
  if !(startsWith importPath (str "~/")) then false
  else importGoesIntoAux w importPath (str "src" :: pathSegs (importPath.drop 2))

/-- The per-entry body of the `for allowed_dep in allowed_set` loop of
`is_import_allowed_by_set` (`src/utils/import_utils.py` lines 172-225):
`true` when this entry admits the import, `false` when the loop `continue`s. -/
def entryAllows (w : World) (importPath : Str) (subsystemPath : FsPath)
    (subsystemAbsPath : Str) (dep : Str) : Bool :=
  if dep = [] then false
  else if importPath = dep then true
  else
    let depN := rstripSlash dep
    if startsWith importPath (depN ++ str "/") ||
        (endsSlash dep && startsWith importPath dep) then
      let pre := if endsSlash dep then dep else depN ++ str "/"
      let childPath := importPath.drop pre.length
      if childPath = [] then true
      else
        let potential :=
          if startsWith depN (str "~/") then
            str "src" :: pathSegs (depN.drop 2) ++ pathSegs childPath
          else pathSegs depN ++ pathSegs childPath
        if import_goes_into_subsystem w importPath &&
            !(startsWith importPath (subsystemAbsPath ++ str "/")) &&
            !(startsWith importPath (depN ++ str "/") &&
              startsWith subsystemAbsPath (depN ++ str "/")) &&
            !(is_same_domain_hierarchical_import importPath subsystemPath) then
          false
        else if hasDepsFile w potential && childPath.count '/' > 0 then
          false
        else true
    else false

/-- `is_import_allowed_by_set` of `src/utils/import_utils.py`.  The Python
loop over the allowed set returns on the first admitting entry and each
entry is judged independently, hence `List.any`. -/
def is_import_allowed_by_set (w : World) (importPath : Str) (allowedSet : List Str)
    (subsystemPath : FsPath) : Bool :=
  let subsystemAbsPath := subsystemAbsOf subsystemPath
  if startsWith importPath (subsystemAbsPath ++ str "/") ||
      importPath = subsystemAbsPath then true
  else if matchesDomainUtilsPattern importPath then true
  else allowedSet.any (entryAllows w importPath subsystemPath subsystemAbsPath)

/-- The upward walk of `resolve_inheritance_chain`: from a directory towards
`src`, collecting each manifest-bearing ancestor's `~`-path followed by its
declared `allowedChildren`. -/
def inheritAux (w : World) (current : FsPath) : List Str :=
  if current = [] ∨ current = [str "src"] then []
  else
    (match lookupDeps w current with
     | some deps => tildeOf current :: deps.allowedChildren
     | none => []) ++ inheritAux w current.dropLast
termination_by current.length
decreasing_by
  rename_i h
  have hne : current ≠ [] := by
    intro hc; exact h (Or.inl hc)
  calc current.dropLast.length = current.length - 1 := List.length_dropLast current
    _ < current.length := by
        cases current with
        | nil => exact absurd rfl hne
        | cons c rest => simp

/-- `resolve_inheritance_chain` of `src/utils/import_utils.py`: the walk
starts at the subsystem's parent directory. -/
def resolve_inheritance_chain (w : World) (subsystemPath : FsPath) : List Str :=
  inheritAux w subsystemPath.dropLast

/-- The upward walk of `get_ancestor_subsystems` (ancestor `~`-paths only). -/
def ancestorsAux (w : World) (current : FsPath) : List Str :=
  if current = [] ∨ current = [str "src"] then []
  else
    (if hasDepsFile w current then [tildeOf current] else []) ++
      ancestorsAux w current.dropLast
termination_by current.length
decreasing_by
  rename_i h
  have hne : current ≠ [] := by
    intro hc; exact h (Or.inl hc)
  calc current.dropLast.length = current.length - 1 := List.length_dropLast current
    _ < current.length := by
        cases current with
        | nil => exact absurd rfl hne
        | cons c rest => simp

/-- `get_ancestor_subsystems` of `src/utils/import_utils.py`. -/
def get_ancestor_subsystems (w : World) (subsystemPath : FsPath) : List Str :=
  ancestorsAux w subsystemPath.dropLast

/-- `find_redundant_ancestor_declarations` of `src/utils/import_utils.py`. -/
def find_redundant_ancestor_declarations (w : World) (subsystemPath : FsPath)
    (deps : Deps) : List Str :=
  deps.allowed.filter (fun d => decide (d ∈ get_ancestor_subsystems w subsystemPath))

/-- A `SubsystemInfo` as far as the import rules consult it. -/
structure Subsys where
  path : FsPath
  parentPath : Option FsPath
  deriving DecidableEq

/-- `is_child_of_subsystem` of `src/utils/import_utils.py` (the `in` test on
stringified paths is substring containment). -/
def is_child_of_subsystem (filePath : FsPath) (parentPath : FsPath)
    (subsystemCache : List Subsys) : Bool :=
  subsystemCache.any (fun child =>
    decide (child.parentPath = some parentPath) &&
      containsSeq (joinSegs filePath) (joinSegs child.path))

/- ### subsystem_rules.py: redundancy checks -/

/-- `check_ancestor_redundancy` of `src/rules/subsystem_rules.py`, modelled as
the list of (subsystem path, redundant ancestor path) pairs for which an error
record is produced (message text elided). -/
def check_ancestor_redundancy (w : World) (subsystems : List (FsPath × Deps)) :
    List (FsPath × Str) :=
  subsystems.flatMap (fun sub =>
    (find_redundant_ancestor_declarations w sub.1 sub.2).map (fun a => (sub.1, a)))

/-- `check_domain_utils_redundancy` of `src/rules/subsystem_rules.py`, modelled
as the list of (subsystem path, redundant declared dependency) pairs for which
an error record is produced. -/
def check_domain_utils_redundancy (subsystems : List (FsPath × Deps)) :
    List (FsPath × Str) :=
  subsystems.flatMap (fun sub =>
    (sub.2.allowed.filter domainUtilsRegexMatch).map (fun dep => (sub.1, dep)))

/- ### import_rules.py: outbound-dependency and boundary checks -/

/-- `PathHelper.is_domain_path` of `src/utils/path_utils.py`. -/
def is_domain_path (p : FsPath) : Bool :=
  startsWith (joinSegs p) (str "src/lib/domains/")

/-- The `all_allowed` set assembled by `check_outbound_dependencies_parallel`
(`src/rules/import_rules.py` lines 117-126): declared `allowed`, declared
`allowedChildren`, the resolved inheritance chain, and `_objects` for domain
subsystems.  The Python set union is order-irrelevant for the membership
tests performed on it. -/
def effectiveAllowedSet (w : World) (deps : Deps) (subsystemPath : FsPath) : List Str :=
  deps.allowed ++ deps.allowedChildren ++ resolve_inheritance_chain w subsystemPath ++
    (if is_domain_path subsystemPath then [str "_objects"] else [])

/-- The per-import body of `check_single_subsystem` inside
`check_outbound_dependencies_parallel` (`src/rules/import_rules.py`
lines 131-156): `true` when an undeclared-outbound-dependency error is
emitted for this import. -/
def outbound_violates (w : World) (deps : Deps) (subsystemPath : FsPath)
    (importPath : Str) : Bool :=
  if !(startsWith importPath (str "~/")) && !(startsWith importPath (str "../")) then
    false
  else if startsWith importPath (str "../") then false
  else
    !(is_import_allowed_by_set w importPath (effectiveAllowedSet w deps subsystemPath)
      subsystemPath)

/-- `_file_has_import_permission` of `src/rules/import_rules.py`. -/
def file_has_import_permission (filePath : Str) (importPath : Str) : Bool :=
  if !(startsWith importPath (str "~/lib/domains/")) then false
  else
    let importParts := splitOnChar '/' importPath
    if importParts.length < 4 then false
    else
      let importDomain := importParts.getD 3 []
      if containsSeq filePath (str "/lib/domains/" ++ importDomain ++ str "/") then true
      else if importParts.length ≥ 5 && importParts.getD 4 [] = str "utils" then true
      else false

/-- The per-file, per-matched-import body of `_find_import_boundary_violations`
(`src/rules/import_rules.py` lines 302-357): `true` when this import of this
external file is recorded as a boundary violation against `subsystemPath`.
The regex `from\s+["'](ABS/[^"']*)["']` can only capture import paths that
extend the subsystem's `~`-path, which the prefix test reproduces. -/
def boundary_violates_import (subsystemPath : FsPath) (filePath : FsPath)
    (importPath : Str) : Bool :=
  if filePath.getLastD [] = str "index.ts" then false
  else if containsSeq (joinSegs filePath) (joinSegs subsystemPath) then false
  else if is_child_of_subsystem filePath subsystemPath [] then false
  else
    let subsystemAbsPath := tildeOf subsystemPath
    if !(startsWith importPath (subsystemAbsPath ++ str "/")) then false
    else
      let subPath := importPath.drop (subsystemAbsPath.length + 1)
      if subPath = [] ∨ subPath = str "index" then false
      else !(file_has_import_permission (joinSegs filePath) importPath)

/- ### import_rules.py: re-export rules -/

/-- `commonPrefixLen` mirrors the common-prefix loop of `_is_upward_reexport`
(`src/rules/import_rules.py` lines 580-586). -/
def commonPrefixLen : List Str → List Str → Nat
  | a :: as_, b :: bs => if a = b then 1 + commonPrefixLen as_ bs else 0
  | _, _ => 0

/-- `_is_upward_reexport` of `src/rules/import_rules.py`. -/
def is_upward_reexport (subsystemPath : FsPath) (importPath : Str) : Bool :=
  let rel := subsystemPath.drop 1
  let domainUtilsEarlyReturn :=
    decide (rel.length ≥ 4) && rel.getD 0 [] = str "lib" &&
    rel.getD 1 [] = str "domains" && rel.getD 3 [] = str "utils" &&
    startsWith importPath (str "~/lib/domains/" ++ rel.getD 2 []) &&
    !(startsWith importPath (tildeOf subsystemPath ++ str "/"))
  if domainUtilsEarlyReturn then false
  else if startsWith importPath (str "../") then true
  else if startsWith importPath (str "~/") then
    let subsystemAbsPath := tildeOf subsystemPath
    if importPath = subsystemAbsPath then false
    else if startsWith importPath (subsystemAbsPath ++ str "/") then false
    else
      let importParts := splitOnChar '/' importPath
      let subsystemParts := splitOnChar '/' subsystemAbsPath
      let commonLength := commonPrefixLen importParts subsystemParts
      decide (importParts.length ≤ subsystemParts.length) && decide (commonLength ≥ 2)
  else false

/-- `_is_domain_index` of `src/rules/import_rules.py`. -/
def is_domain_index (w : World) (subsystemPath : FsPath) : Bool :=
  decide (subsystemPath.length ≥ 4) &&
  subsystemPath.getD (subsystemPath.length - 3) [] = str "lib" &&
  subsystemPath.getD (subsystemPath.length - 2) [] = str "domains" &&
  fileExists w (subsystemPath ++ [str "index.ts"])

/-- `_is_domain_utils` of `src/rules/import_rules.py`. -/
def is_domain_utils (subsystemPath : FsPath) : Bool :=
  decide (subsystemPath.length ≥ 5) &&
  subsystemPath.getD 0 [] = str "src" && subsystemPath.getD 1 [] = str "lib" &&
  subsystemPath.getD 2 [] = str "domains" && subsystemPath.getD 4 [] = str "utils"

/-- `_is_internal_file_reexport` of `src/rules/import_rules.py`. -/
def is_internal_file_reexport (w : World) (subsystemPath : FsPath)
    (childName : Str) : Bool :=
  fileExists w (subsystemPath ++ pathSegs (childName ++ str ".ts")) ||
  fileExists w (subsystemPath ++ pathSegs (childName ++ str ".tsx")) ||
  fileExists w (subsystemPath ++ pathSegs childName ++ [str "index.ts"]) ||
  fileExists w (subsystemPath ++ pathSegs childName ++ [str "index.tsx"])

/-- The distinct violation reasons `_check_reexport_violation` can report. -/
inductive ReexportReason where
  | upward
  | domainIndexUtils
  | externalEncapsulation
  | invalidPattern
  deriving DecidableEq

/-- `_check_reexport_violation` of `src/rules/import_rules.py`, returning the
violation reason (`none` when the re-export is accepted).  Line numbers and
statement text of the Python violation dict are elided. -/
def check_reexport_violation (w : World) (subsystemPath : FsPath) (deps : Deps)
    (importPath : Str) : Option ReexportReason :=
  if is_upward_reexport subsystemPath importPath then some .upward
  else if is_domain_index w subsystemPath &&
      (importPath = str "./utils" || startsWith importPath (str "./utils/")) then
    some .domainIndexUtils
  else if is_domain_index w subsystemPath &&
      (importPath = tildeOf subsystemPath ++ str "/utils" ||
        startsWith importPath (tildeOf subsystemPath ++ str "/utils/")) then
    some .domainIndexUtils
  else if is_domain_utils subsystemPath &&
      decide ((subsystemPath.drop 1).length ≥ 4) &&
      (subsystemPath.drop 1).getD 0 [] = str "lib" &&
      (subsystemPath.drop 1).getD 1 [] = str "domains" &&
      (startsWith importPath (str "~/lib/domains/" ++ (subsystemPath.drop 1).getD 2 []) ||
        startsWith importPath (str "../")) then
    none
  else if startsWith importPath (str "./") then
    let childName := importPath.drop 2
    if (str "./" ++ childName) ∈ deps.childSubsystems then none
    else if is_internal_file_reexport w subsystemPath childName then none
    else none
  else if startsWith importPath (str "../") then some .externalEncapsulation
  else if startsWith importPath (str "~/") then
    if startsWith importPath (tildeOf subsystemPath ++ str "/") then none
    else some .externalEncapsulation
  else if !(startsWith importPath (str ".")) && !(startsWith importPath (str "~")) then
    none
  else some .invalidPattern

/- ### exception_handler.py -/

/-- A parsed `.architecture-exceptions` rule (`ArchitectureException`). -/
structure ArchException where
  path : Str
  threshold : Int
  justification : Str
  deriving DecidableEq

/-- Per-file lookup made by `get_custom_threshold` against one parsed
`.architecture-exceptions` file.  `_load_exception_file` stores rules in a
dict keyed by path (a later line for the same path overwrites an earlier
one), and `_path_matches_pattern` is exact equality, so both the
exact-match step and the sorted pattern loop reduce to the dict entry for
the target: the last parsed rule whose path equals the target. -/
def archFileLookup (entries : List ArchException) (target : Str) : Option ArchException :=
  entries.reverse.find? (fun e => e.path = target)

/-- `ExceptionHandler.get_custom_threshold` of `src/utils/exception_handler.py`.
The upward walk over directories is modelled by `levels`: for each directory
from the target up to the project root, `some` parsed `.architecture-exceptions`
file or `none` when the directory has no such file. -/
def get_custom_threshold (levels : List (Option (List ArchException)))
    (target : Str) : Option ArchException :=
  match levels with
  | [] => none
  | lvl :: rest =>
    match lvl with
    | some entries =>
      match archFileLookup entries target with
      | some e => some e
      | none => get_custom_threshold rest target
    | none => get_custom_threshold rest target

/-- A parsed `.ruleof6-exceptions` rule (`RuleOf6Exception`).  Path strings
are taken already in normalised project-relative form (`_normalize_path`'s
`resolve`/`relative_to` canonicalisation is elided). -/
structure R6Rule where
  filePath : Str
  functionName : Option Str
  threshold : Int
  justification : Str
  deriving DecidableEq

/-- The dictionary state of `RuleOf6ExceptionHandler`: file-level and
function-level exceptions.  A Python dict assignment is modelled by
prepending, and lookup by first match, so that the latest assignment for a
key wins, exactly as in `dict[key] = value`. -/
structure R6State where
  fileExceptions : List (Str × R6Rule)
  functionExceptions : List (Str × R6Rule)
  deriving DecidableEq

/-- Insertion of one parsed rule, as done at the end of
`_parse_exception_file` (`src/utils/exception_handler.py` lines 286-291). -/
def r6insert (st : R6State) (rule : R6Rule) : R6State :=
  match rule.functionName with
  | some fn => { st with functionExceptions :=
      (rule.filePath ++ str ":" ++ fn, rule) :: st.functionExceptions }
  | none => { st with fileExceptions := (rule.filePath, rule) :: st.fileExceptions }

/-- `RuleOf6ExceptionHandler.load_exceptions`: the walk visits the exception
files from the target directory up to the project root, parsing each one in
that order (closest first); every parsed line is inserted into the shared
dicts.  `files` lists the parsed rule lines of each visited file, closest
file first. -/
def load_exceptions (files : List (List R6Rule)) : R6State :=
  files.foldl (fun st lines => lines.foldl r6insert st) ⟨[], []⟩

/-- `RuleOf6ExceptionHandler.get_file_exception`: dict lookup of the
normalised path, with a `src/`-stripped retry. -/
def r6_get_file_exception (st : R6State) (path : Str) : Option R6Rule :=
  match (st.fileExceptions.find? (fun e => e.1 = path)).map (fun e => e.2) with
  | some r => some r
  | none =>
    if startsWith path (str "src/") then
      (st.fileExceptions.find? (fun e => e.1 = path.drop 4)).map (fun e => e.2)
    else none

/- ### file_utils.py and typescript_parser.py: degraded reads -/

/-- Outcome of `open(file).read()`: the text, or an `OSError` /
`UnicodeDecodeError`. -/
inductive ReadResult where
  | ok (text : Str)
  | err
  deriving DecidableEq

/-- `get_file_content` of `src/utils/file_utils.py`. -/
def get_file_content : ReadResult → Str
  | .ok text => text
  | .err => []

/-- One attempted match of `from\s+["']([^"']+)["']` at the head of the
input: the captured path and the remaining input. -/
def matchFromAt : Str → Option (Str × Str)
  | 'f' :: 'r' :: 'o' :: 'm' :: rest =>
    let ws := rest.takeWhile (fun c =>
      c = ' ' || c = '\t' || c = '\n' || c = '\x0d' || c = '\x0b' || c = '\x0c')
    if ws = [] then none
    else
      match rest.drop ws.length with
      | q :: rest2 =>
        if q = '"' || q = '\'' then
          let body := rest2.takeWhile (fun c => !(c = '"' || c = '\''))
          if body = [] then none
          else
            match rest2.drop body.length with
            | q2 :: rest3 => if q2 = '"' || q2 = '\'' then some (body, rest3) else none
            | [] => none
        else none
      | [] => none
  | _ => none

/-- Fuel-driven scan for `re.findall` (leftmost, non-overlapping); each step
consumes at least one character, so `fuel = length` suffices. -/
def scanImportsFuel : Nat → Str → List Str
  | 0, _ => []
  | _ + 1, [] => []
  | fuel + 1, s =>
    match matchFromAt s with
    | some (body, rest) => body :: scanImportsFuel fuel rest
    | none => scanImportsFuel fuel (s.drop 1)

/-- `TypeScriptParser.extract_import_paths` of `src/shared/typescript_parser.py`
(also `extract_imports` of `src/utils/import_utils.py`):
`re.findall(r'from\s+["\x27]([^"\x27]+)["\x27]', content)`. -/
def extract_import_paths (content : Str) : List Str :=
  scanImportsFuel content.length content

/-- The fields of a `FileInfo` computed by `FileCache.get_file_info`
(`src/utils/file_utils.py` lines 22-37); the path field is elided. -/
structure FileFacts where
  lines : Nat
  content : Str
  imports : List Str
  deriving DecidableEq

/-- `FileCache.get_file_info` of `src/utils/file_utils.py`. -/
def get_file_info (r : ReadResult) : FileFacts :=
  let content := get_file_content r
  { lines := if content = [] then 0 else content.count '\n' + 1
    content := content
    imports := extract_import_paths content }

/-- Outcome of `json.load(open(deps_file))`: a parsed manifest, a
`JSONDecodeError`, or an `OSError`. -/
inductive JsonResult where
  | ok (deps : Deps)
  | errDecode
  | errOS
  deriving DecidableEq

/-- `FileCache.load_dependencies_json` of `src/utils/file_utils.py`:
malformed or unreadable manifests degrade to the empty dict. -/
def load_dependencies_json : JsonResult → Deps
  | .ok deps => deps
  | .errDecode => Deps.empty
  | .errOS => Deps.empty

/- ### Structure lemmas for is_import_allowed_by_set -/

theorem is_import_allowed_of_self {w : World} {importPath : Str} {A : List Str}
    {subsystemPath : FsPath}
    (h : startsWith importPath (subsystemAbsOf subsystemPath ++ str "/") = true ∨
      importPath = subsystemAbsOf subsystemPath) :
    is_import_allowed_by_set w importPath A subsystemPath = true := by
  simp only [is_import_allowed_by_set]
  rcases h with h | h <;> simp [h]

theorem is_import_allowed_of_pattern {w : World} {importPath : Str} {A : List Str}
    {subsystemPath : FsPath} (h : matchesDomainUtilsPattern importPath = true) :
    is_import_allowed_by_set w importPath A subsystemPath = true := by
  simp [is_import_allowed_by_set, h]

theorem is_import_allowed_of_entry {w : World} {importPath : Str} {A : List Str}
    {subsystemPath : FsPath} {d : Str} (hd : d ∈ A)
    (h : entryAllows w importPath subsystemPath (subsystemAbsOf subsystemPath) d = true) :
    is_import_allowed_by_set w importPath A subsystemPath = true := by
  simp only [is_import_allowed_by_set]
  split
  · rfl
  · split
    · rfl
    · exact List.any_eq_true.mpr ⟨d, hd, h⟩

theorem is_import_allowed_eq_false {w : World} {importPath : Str} {A : List Str}
    {subsystemPath : FsPath}
    (h1 : startsWith importPath (subsystemAbsOf subsystemPath ++ str "/") = false)
    (h2 : importPath ≠ subsystemAbsOf subsystemPath)
    (h3 : matchesDomainUtilsPattern importPath = false)
    (h4 : ∀ d ∈ A,
      entryAllows w importPath subsystemPath (subsystemAbsOf subsystemPath) d = false) :
    is_import_allowed_by_set w importPath A subsystemPath = false := by
  simp only [is_import_allowed_by_set, h1, h3, decide_eq_false h2, Bool.or_false,
    Bool.false_eq_true, if_false, List.any_eq_false]
  intro d hd
  simp [h4 d hd]

/-- Claim C9: `is_import_allowed_by_set` is monotone in the allowed set —
enlarging the set can only turn DENY into ALLOW, never the reverse. -/
theorem is_import_allowed_by_set_monotone (w : World) (importPath : Str)
    (subsystemPath : FsPath) (A B : List Str) (hAB : ∀ d ∈ A, d ∈ B)
    (h : is_import_allowed_by_set w importPath A subsystemPath = true) :
    is_import_allowed_by_set w importPath B subsystemPath = true := by
  simp only [is_import_allowed_by_set] at h ⊢
  by_cases h1 : (startsWith importPath (subsystemAbsOf subsystemPath ++ str "/") ||
      decide (importPath = subsystemAbsOf subsystemPath)) = true
  · simp [h1]
  · by_cases h2 : matchesDomainUtilsPattern importPath = true
    · simp [h2]
    · rw [if_neg h1, if_neg h2] at h ⊢
      rcases List.any_eq_true.mp h with ⟨d, hd, hall⟩
      exact List.any_eq_true.mpr ⟨d, hAB d hd, hall⟩

/-- Witness for C9 at a concrete input: the singleton set admitting the
target is contained in a two-element set, which therefore admits it too. -/
theorem is_import_allowed_by_set_monotone_witness :
    is_import_allowed_by_set ⟨[], []⟩ (str "~/lib/utils")
      [str "~/lib/utils", str "~/components"] [str "src", str "app"] = true := by
  apply is_import_allowed_by_set_monotone ⟨[], []⟩ (str "~/lib/utils")
    [str "src", str "app"] [str "~/lib/utils"]
    [str "~/lib/utils", str "~/components"]
  · intro d hd
    simp at hd
    simp [hd]
  · decide

/-- Claim C6: an import targeting the importing subsystem's own root, or any
path beneath it, is ALLOW for every declared allowed set, including the
empty one. -/
theorem self_import_always_allowed (w : World) (A : List Str)
    (subsystemPath : FsPath) (tail : Str) :
    is_import_allowed_by_set w (subsystemAbsOf subsystemPath) A subsystemPath = true ∧
    is_import_allowed_by_set w (subsystemAbsOf subsystemPath ++ str "/" ++ tail) A
      subsystemPath = true := by
  constructor
  · exact is_import_allowed_of_self (Or.inr rfl)
  · refine is_import_allowed_of_self (Or.inl ?_)
    rw [startsWith_iff]
    exact List.prefix_append _ _

/-- Claim C10: a relative `../` import is skipped by the outbound-dependency
check before any allow-set evaluation; it never yields an undeclared
outbound-dependency violation. -/
theorem parent_relative_import_never_outbound_violation (w : World) (deps : Deps)
    (subsystemPath : FsPath) (importPath : Str)
    (h : startsWith importPath (str "../") = true) :
    outbound_violates w deps subsystemPath importPath = false := by
  unfold outbound_violates
  rw [h]
  simp

/-- Witness for C10 at a concrete input. -/
theorem parent_relative_import_never_outbound_violation_witness :
    outbound_violates ⟨[], []⟩ Deps.empty [str "src", str "app"]
      (str "../lib/helpers") = false := by
  apply parent_relative_import_never_outbound_violation
  decide

theorem startsWith_mono {s p q : Str} (h : startsWith s p = true) (hq : q <+: p) :
    startsWith s q = true := by
  rw [startsWith_iff] at h ⊢
  exact hq.trans h

/-- Claim C7: an import path with no internal prefix (`./`, `../` or `~/`)
produces neither an undeclared-outbound-dependency violation nor an
attributed import-boundary violation, for any subsystem configuration. -/
theorem external_import_no_violation (w : World) (deps : Deps)
    (subsystemPath : FsPath) (filePath : FsPath) (importPath : Str)
    (hdot : startsWith importPath (str "./") = false)
    (hdotdot : startsWith importPath (str "../") = false)
    (htilde : startsWith importPath (str "~/") = false) :
    outbound_violates w deps subsystemPath importPath = false ∧
    boundary_violates_import subsystemPath filePath importPath = false := by
  constructor
  · unfold outbound_violates
    rw [htilde, hdotdot]
    simp
  · have hfalse : startsWith importPath (tildeOf subsystemPath ++ str "/") = false := by
      rcases Bool.eq_false_or_eq_true
        (startsWith importPath (tildeOf subsystemPath ++ str "/")) with hb | hb
      · have : startsWith importPath (str "~/") = true := by
          refine startsWith_mono hb ?_
          unfold tildeOf
          rw [List.append_assoc]
          exact List.prefix_append _ _
        simp [this] at htilde
      · exact hb
    simp only [boundary_violates_import, hfalse]
    split
    · rfl
    split
    · rfl
    split
    · rfl
    simp

/-- Witness for C7 at a concrete input: a bare external specifier. -/
theorem external_import_no_violation_witness :
    outbound_violates ⟨[], []⟩ Deps.empty [str "src", str "app"] (str "react") = false ∧
    boundary_violates_import [str "src", str "widgets"]
      [str "src", str "app", str "page.tsx"] (str "react") = false := by
  apply external_import_no_violation ⟨[], []⟩ Deps.empty [str "src", str "app"]
    [str "src", str "app", str "page.tsx"] (str "react") <;> decide

/-- Claim C8: an unreadable or non-UTF-8 file degrades to an empty fact set
(empty content, zero lines, zero imports) and a malformed or unreadable
`dependencies.json` degrades to the empty manifest; neither read raises. -/
theorem degraded_reads_yield_empty_facts :
    get_file_content .err = [] ∧
    (get_file_info .err).lines = 0 ∧
    (get_file_info .err).content = [] ∧
    (get_file_info .err).imports = [] ∧
    load_dependencies_json .errDecode = Deps.empty ∧
    load_dependencies_json .errOS = Deps.empty :=
  ⟨rfl, rfl, rfl, rfl, rfl, rfl⟩

/- ### Ancestor-walk lemmas -/

theorem prefix_dropLast {A l : List Str} (h : A <+: l) (hlen : A.length ≤ l.length - 1) :
    A <+: l.dropLast := by
  rw [List.prefix_iff_eq_take] at h ⊢
  rw [List.dropLast_eq_take, List.take_take, Nat.min_def, if_pos hlen]
  exact h

theorem length_lt_of_proper_prefix {A l : List Str} (h : A <+: l) (hne : A ≠ l) :
    A.length < l.length := by
  rcases Nat.lt_or_ge A.length l.length with hlt | hge
  · exact hlt
  · exact absurd (h.eq_of_length (Nat.le_antisymm h.length_le hge)) hne

theorem inheritAux_mem (w : World) (A : FsPath) (depsA : Deps)
    (hA : lookupDeps w A = some depsA) (hlen : 2 ≤ A.length) :
    ∀ n (current : FsPath), current.length ≤ n → A <+: current →
      tildeOf A ∈ inheritAux w current := by
  intro n
  induction n with
  | zero =>
    intro current hn hpre
    have := hpre.length_le
    omega
  | succ n ih =>
    intro current hn hpre
    have hAne : A ≠ [] := by
      intro hc; rw [hc] at hlen; simp at hlen
    have hcne : current ≠ [] := by
      intro hc
      rw [hc] at hpre
      have h0 := hpre.length_le
      simp only [List.length_nil] at h0
      omega
    have hcsrc : current ≠ [str "src"] := by
      intro hc
      rw [hc] at hpre
      have hle := hpre.length_le
      simp only [List.length_cons, List.length_nil] at hle
      omega
    by_cases hAc : A = current
    · subst hAc
      rw [inheritAux, if_neg, hA]
      · exact List.mem_append_left _ (List.mem_cons_self _ _)
      · rintro (hc | hc)
        · exact hAne hc
        · rw [hc] at hlen; simp at hlen
    · have hlt := length_lt_of_proper_prefix hpre hAc
      rw [inheritAux, if_neg]
      · refine List.mem_append_right _ ?_
        refine ih current.dropLast ?_ (prefix_dropLast hpre (by omega))
        have := List.length_dropLast current
        omega
      · rintro (hc | hc)
        · exact hcne hc
        · exact hcsrc hc

theorem ancestorsAux_mem (w : World) (A : FsPath)
    (hA : hasDepsFile w A = true) (hlen : 2 ≤ A.length) :
    ∀ n (current : FsPath), current.length ≤ n → A <+: current →
      tildeOf A ∈ ancestorsAux w current := by
  intro n
  induction n with
  | zero =>
    intro current hn hpre
    have := hpre.length_le
    omega
  | succ n ih =>
    intro current hn hpre
    have hAne : A ≠ [] := by
      intro hc; rw [hc] at hlen; simp at hlen
    have hcne : current ≠ [] := by
      intro hc
      rw [hc] at hpre
      have h0 := hpre.length_le
      simp only [List.length_nil] at h0
      omega
    have hcsrc : current ≠ [str "src"] := by
      intro hc
      rw [hc] at hpre
      have hle := hpre.length_le
      simp only [List.length_cons, List.length_nil] at hle
      omega
    by_cases hAc : A = current
    · subst hAc
      rw [ancestorsAux, if_neg, hA]
      · exact List.mem_append_left _ (by simp)
      · rintro (hc | hc)
        · exact hAne hc
        · rw [hc] at hlen; simp at hlen
    · have hlt := length_lt_of_proper_prefix hpre hAc
      rw [ancestorsAux, if_neg]
      · refine List.mem_append_right _ ?_
        refine ih current.dropLast ?_ (prefix_dropLast hpre (by omega))
        have := List.length_dropLast current
        omega
      · rintro (hc | hc)
        · exact hcne hc
        · exact hcsrc hc

theorem tildeOf_ne_nil (p : FsPath) : tildeOf p ≠ [] := by
  simp [tildeOf, str]

/-- An allowed entry equal to the import path itself admits the import. -/
theorem entryAllows_of_eq {w : World} {subsystemPath : FsPath} {sAbs : Str}
    {p : Str} (hp : p ≠ []) :
    entryAllows w p subsystemPath sAbs p = true := by
  rw [entryAllows, if_neg hp]
  simp

/-- Claim C4: a subsystem may always import an ancestor subsystem's root:
the ancestor's `~`-path is injected by `resolve_inheritance_chain`, the
effective allowed set therefore admits the import whatever the declared
`allowed` list says, and an explicit declaration of the ancestor is flagged
as redundant by `check_ancestor_redundancy`. -/
theorem ancestor_always_importable_and_flagged (w : World) (S A : FsPath)
    (deps depsA : Deps) (subsystems : List (FsPath × Deps))
    (hA : lookupDeps w A = some depsA)
    (hpre : A <+: S) (hne : A ≠ S) (hlen : 2 ≤ A.length)
    (hmem : (S, deps) ∈ subsystems) :
    tildeOf A ∈ resolve_inheritance_chain w S ∧
    is_import_allowed_by_set w (tildeOf A) (effectiveAllowedSet w deps S) S = true ∧
    (tildeOf A ∈ deps.allowed →
      (S, tildeOf A) ∈ check_ancestor_redundancy w subsystems) := by
  have hchain : tildeOf A ∈ resolve_inheritance_chain w S := by
    have hlt := length_lt_of_proper_prefix hpre hne
    exact inheritAux_mem w A depsA hA hlen S.dropLast.length S.dropLast le_rfl
      (prefix_dropLast hpre (by omega))
  refine ⟨hchain, ?_, ?_⟩
  · refine is_import_allowed_of_entry (d := tildeOf A) ?_
      (entryAllows_of_eq (tildeOf_ne_nil A))
    unfold effectiveAllowedSet
    exact List.mem_append_left _ (List.mem_append_right _ hchain)
  · intro hdecl
    have hanc : tildeOf A ∈ get_ancestor_subsystems w S := by
      have hlt := length_lt_of_proper_prefix hpre hne
      refine ancestorsAux_mem w A ?_ hlen S.dropLast.length S.dropLast le_rfl
        (prefix_dropLast hpre (by omega))
      simp [hasDepsFile, hA]
    unfold check_ancestor_redundancy
    rw [List.mem_flatMap]
    refine ⟨(S, deps), hmem, ?_⟩
    rw [List.mem_map]
    refine ⟨tildeOf A, ?_, rfl⟩
    unfold find_redundant_ancestor_declarations
    rw [List.mem_filter]
    exact ⟨hdecl, by simp [hanc]⟩

/-- Witness for C4 at a concrete input: subsystem `src/a/b` with ancestor
subsystem `src/a` declared redundantly. -/
theorem ancestor_always_importable_and_flagged_witness :
    tildeOf [str "src", str "a"] ∈ resolve_inheritance_chain
      ⟨[([str "src", str "a"], Deps.empty),
        ([str "src", str "a", str "b"], ⟨[str "~/a"], [], []⟩)], []⟩
      [str "src", str "a", str "b"] ∧
    is_import_allowed_by_set
      ⟨[([str "src", str "a"], Deps.empty),
        ([str "src", str "a", str "b"], ⟨[str "~/a"], [], []⟩)], []⟩
      (tildeOf [str "src", str "a"])
      (effectiveAllowedSet
        ⟨[([str "src", str "a"], Deps.empty),
          ([str "src", str "a", str "b"], ⟨[str "~/a"], [], []⟩)], []⟩
        ⟨[str "~/a"], [], []⟩ [str "src", str "a", str "b"])
      [str "src", str "a", str "b"] = true ∧
    (tildeOf [str "src", str "a"] ∈ Deps.allowed ⟨[str "~/a"], [], []⟩ →
      ([str "src", str "a", str "b"], tildeOf [str "src", str "a"]) ∈
        check_ancestor_redundancy
          ⟨[([str "src", str "a"], Deps.empty),
            ([str "src", str "a", str "b"], ⟨[str "~/a"], [], []⟩)], []⟩
          [([str "src", str "a", str "b"], ⟨[str "~/a"], [], []⟩)]) := by
  apply ancestor_always_importable_and_flagged _ _ _ _ Deps.empty _ <;> decide

/- ### Domain-utils carve-out lemmas -/

theorem containsSeq_append_of_prefix {s t pat : Str} (h : pat <+: t) :
    containsSeq (s ++ t) pat = true := by
  induction s with
  | nil =>
    simp only [List.nil_append]
    rw [containsSeq.eq_def]
    simp [List.isPrefixOf_iff_prefix.mpr h]
  | cons c s' ih =>
    rw [List.cons_append, containsSeq.eq_def]
    simp [ih]

theorem splitOnChar_domain_utils_exact {d : Str} (hd : isSeg d = true) :
    splitOnChar '/' (d ++ str "/utils") = [d, str "utils"] := by
  rw [show (str "/utils" : Str) = '/' :: str "utils" from rfl,
    splitOnChar_append_sep (slashFree_of_isSeg hd)]
  rfl

theorem splitOnChar_domain_utils_deeper {d r : Str} (hd : isSeg d = true) :
    splitOnChar '/' (d ++ str "/utils" ++ '/' :: r) =
      d :: str "utils" :: splitOnChar '/' r := by
  rw [List.append_assoc, show (str "/utils" : Str) ++ '/' :: r =
      '/' :: (str "utils" ++ '/' :: r) from rfl,
    splitOnChar_append_sep (slashFree_of_isSeg hd),
    splitOnChar_append_sep (by decide : ∀ c ∈ str "utils", c ≠ '/')]

theorem domainUtilsRegexMatch_exact {d : Str} (hd : isSeg d = true) :
    domainUtilsRegexMatch (str "~/lib/domains/" ++ d ++ str "/utils") = true := by
  have hdrop : (str "~/lib/domains/" ++ d ++ str "/utils").drop 14 = d ++ str "/utils" := by
    rw [List.append_assoc]
    exact List.drop_left' (by rfl)
  have hstarts : startsWith (str "~/lib/domains/" ++ d ++ str "/utils")
      (str "~/lib/domains/") = true := by
    rw [List.append_assoc]
    exact startsWith_append _ _
  unfold domainUtilsRegexMatch
  rw [hstarts, hdrop, splitOnChar_domain_utils_exact hd]
  simp [ne_nil_of_isSeg hd]

theorem domainUtilsRegexMatch_deeper {d r : Str} (hd : isSeg d = true) :
    domainUtilsRegexMatch (str "~/lib/domains/" ++ d ++ str "/utils" ++ '/' :: r) = true := by
  have hdrop : (str "~/lib/domains/" ++ d ++ str "/utils" ++ '/' :: r).drop 14 =
      d ++ str "/utils" ++ '/' :: r := by
    rw [List.append_assoc, List.append_assoc, ← List.append_assoc d]
    exact List.drop_left' (by rfl)
  have hstarts : startsWith (str "~/lib/domains/" ++ d ++ str "/utils" ++ '/' :: r)
      (str "~/lib/domains/") = true := by
    rw [List.append_assoc, List.append_assoc]
    exact startsWith_append _ _
  unfold domainUtilsRegexMatch
  rw [hstarts, hdrop, splitOnChar_domain_utils_deeper hd]
  simp [ne_nil_of_isSeg hd]

theorem matchesDomainUtilsPattern_exact {d : Str} (hd : isSeg d = true) :
    matchesDomainUtilsPattern (str "~/lib/domains/" ++ d ++ str "/utils") = true := by
  have h1 : containsSeq (str "~/lib/domains/" ++ d ++ str "/utils")
      (str "/lib/domains/") = true := by
    rw [show str "~/lib/domains/" ++ d ++ str "/utils" =
        str "~" ++ (str "/lib/domains/" ++ (d ++ str "/utils")) from rfl]
    exact containsSeq_append_of_prefix (List.prefix_append _ _)
  have h2 : containsSeq (str "~/lib/domains/" ++ d ++ str "/utils")
      (str "/utils") = true :=
    containsSeq_append_of_prefix List.prefix_rfl
  unfold matchesDomainUtilsPattern
  rw [h1, h2, domainUtilsRegexMatch_exact hd]
  rfl

theorem matchesDomainUtilsPattern_deeper {d r : Str} (hd : isSeg d = true) :
    matchesDomainUtilsPattern (str "~/lib/domains/" ++ d ++ str "/utils" ++ '/' :: r) = true := by
  have h1 : containsSeq (str "~/lib/domains/" ++ d ++ str "/utils" ++ '/' :: r)
      (str "/lib/domains/") = true := by
    rw [show str "~/lib/domains/" ++ d ++ str "/utils" ++ '/' :: r =
        str "~" ++ (str "/lib/domains/" ++ (d ++ str "/utils" ++ '/' :: r)) from by
      simp only [List.append_assoc]; rfl]
    exact containsSeq_append_of_prefix (List.prefix_append _ _)
  have h2 : containsSeq (str "~/lib/domains/" ++ d ++ str "/utils" ++ '/' :: r)
      (str "/utils") = true := by
    rw [List.append_assoc, show (str "/utils" : Str) ++ '/' :: r =
        str "/utils" ++ '/' :: r from rfl]
    exact containsSeq_append_of_prefix (List.prefix_append _ _)
  unfold matchesDomainUtilsPattern
  rw [h1, h2, domainUtilsRegexMatch_deeper hd]
  rfl

/-- Claim C5: a domain-utils path (`~/lib/domains/NAME/utils` or anything
beneath it) is ALLOW for every allowed set and every importing subsystem,
and declaring such a path in an `allowed` list is flagged as redundant by
`check_domain_utils_redundancy`. -/
theorem domain_utils_always_allowed_and_flagged (w : World) (A : List Str)
    (S : FsPath) (d r : Str) (subsystems : List (FsPath × Deps))
    (S' : FsPath) (deps : Deps)
    (hd : isSeg d = true) (hmem : (S', deps) ∈ subsystems) :
    is_import_allowed_by_set w (str "~/lib/domains/" ++ d ++ str "/utils") A S = true ∧
    is_import_allowed_by_set w (str "~/lib/domains/" ++ d ++ str "/utils" ++ '/' :: r)
      A S = true ∧
    (str "~/lib/domains/" ++ d ++ str "/utils" ∈ deps.allowed →
      (S', str "~/lib/domains/" ++ d ++ str "/utils") ∈
        check_domain_utils_redundancy subsystems) ∧
    (str "~/lib/domains/" ++ d ++ str "/utils" ++ '/' :: r ∈ deps.allowed →
      (S', str "~/lib/domains/" ++ d ++ str "/utils" ++ '/' :: r) ∈
        check_domain_utils_redundancy subsystems) := by
  refine ⟨is_import_allowed_of_pattern (matchesDomainUtilsPattern_exact hd),
    is_import_allowed_of_pattern (matchesDomainUtilsPattern_deeper hd), ?_, ?_⟩
  · intro hdecl
    unfold check_domain_utils_redundancy
    rw [List.mem_flatMap]
    refine ⟨(S', deps), hmem, ?_⟩
    rw [List.mem_map]
    refine ⟨_, ?_, rfl⟩
    rw [List.mem_filter]
    exact ⟨hdecl, domainUtilsRegexMatch_exact hd⟩
  · intro hdecl
    unfold check_domain_utils_redundancy
    rw [List.mem_flatMap]
    refine ⟨(S', deps), hmem, ?_⟩
    rw [List.mem_map]
    refine ⟨_, ?_, rfl⟩
    rw [List.mem_filter]
    exact ⟨hdecl, domainUtilsRegexMatch_deeper hd⟩

/-- Witness for C5 at a concrete input: domain `mapping`. -/
theorem domain_utils_always_allowed_and_flagged_witness :
    is_import_allowed_by_set ⟨[], []⟩
      (str "~/lib/domains/" ++ str "mapping" ++ str "/utils") []
      [str "src", str "app"] = true ∧
    is_import_allowed_by_set ⟨[], []⟩
      (str "~/lib/domains/" ++ str "mapping" ++ str "/utils" ++ '/' :: str "color") []
      [str "src", str "app"] = true ∧
    (str "~/lib/domains/" ++ str "mapping" ++ str "/utils" ∈
        Deps.allowed ⟨[str "~/lib/domains/mapping/utils"], [], []⟩ →
      ([str "src", str "app"], str "~/lib/domains/" ++ str "mapping" ++ str "/utils") ∈
        check_domain_utils_redundancy
          [([str "src", str "app"], ⟨[str "~/lib/domains/mapping/utils"], [], []⟩)]) ∧
    (str "~/lib/domains/" ++ str "mapping" ++ str "/utils" ++ '/' :: str "color" ∈
        Deps.allowed ⟨[str "~/lib/domains/mapping/utils"], [], []⟩ →
      ([str "src", str "app"],
        str "~/lib/domains/" ++ str "mapping" ++ str "/utils" ++ '/' :: str "color") ∈
        check_domain_utils_redundancy
          [([str "src", str "app"], ⟨[str "~/lib/domains/mapping/utils"], [], []⟩)]) := by
  apply domain_utils_always_allowed_and_flagged <;> decide

/-- Claim C2 (code bug): a domain `utils` subsystem's index re-exporting from
`../types` (a same-domain sibling) is nevertheless reported: the upward check
fires on every `../` path before the domain-utils `../` exception branch of
`_check_reexport_violation` can run, leaving that branch unreachable. -/
theorem domain_utils_parent_reexport_still_reported :
    check_reexport_violation
      ⟨[([str "src", str "lib", str "domains", str "mapping", str "utils"], Deps.empty)],
        [[str "src", str "lib", str "domains", str "mapping", str "utils", str "index.ts"]]⟩
      [str "src", str "lib", str "domains", str "mapping", str "utils"]
      Deps.empty (str "../types") = some .upward := by
  decide

/-- Counterexample to claim C3: two `.ruleof6-exceptions` files, the closer
declaring threshold 6 for `a/b.ts` and the farther declaring threshold 10 for
the same key; the lookup returns the farther file's threshold, not the
closer one. -/
theorem closest_override_wins_counterexample :
    (r6_get_file_exception
      (load_exceptions
        [[⟨str "a/b.ts", none, 6, str "closer justification"⟩],
         [⟨str "a/b.ts", none, 10, str "farther justification"⟩]])
      (str "a/b.ts")).map R6Rule.threshold = some 10 ∧ (10 : Int) ≠ 6 := by
  constructor
  · decide
  · decide

/-- Claim C3 as amended: for `.architecture-exceptions`, the walk returns the
match from the closest file and never consults farther levels for that key;
for `.ruleof6-exceptions`, when the same file-level key appears in several
files, the rule of the file parsed last — the farthest from the target —
overwrites the closer one and is the one returned. -/
theorem override_precedence_amended :
    (∀ (entries : List ArchException) (rest : List (Option (List ArchException)))
      (target : Str) (e : ArchException),
      archFileLookup entries target = some e →
      get_custom_threshold (some entries :: rest) target = some e) ∧
    (∀ (r1 r2 : R6Rule) (k : Str), r1.functionName = none → r2.functionName = none →
      r1.filePath = k → r2.filePath = k →
      r6_get_file_exception (load_exceptions [[r1], [r2]]) k = some r2) := by
  constructor
  · intro entries rest target e h
    simp [get_custom_threshold, h]
  · intro r1 r2 k h1 h2 hk1 hk2
    simp [load_exceptions, r6insert, h1, h2, r6_get_file_exception, hk1, hk2]

/-- Witness for the amended C3 at concrete inputs. -/
theorem override_precedence_amended_witness :
    get_custom_threshold [some [⟨str "a", 7, str "justified because"⟩], none]
      (str "a") = some ⟨str "a", 7, str "justified because"⟩ ∧
    r6_get_file_exception
      (load_exceptions
        [[⟨str "k.ts", none, 6, str "near"⟩], [⟨str "k.ts", none, 10, str "far"⟩]])
      (str "k.ts") = some ⟨str "k.ts", none, 10, str "far"⟩ := by
  constructor
  · exact override_precedence_amended.1 _ [none] _ _ (by decide)
  · exact override_precedence_amended.2 _ _ _ (by decide) (by decide) (by decide)
      (by decide)

/- ### Lemmas for the grandchild re-block claim -/

theorem rstripSlash_eq_self {l : Str} (h : l.getLast? ≠ some '/') :
    rstripSlash l = l := by
  induction l with
  | nil => rfl
  | cons c rest ih =>
    cases rest with
    | nil =>
      have hc : c ≠ '/' := by
        intro hcc
        exact h (by simp [hcc])
      simp [rstripSlash, hc]
    | cons d rest' =>
      have h' : (d :: rest').getLast? ≠ some '/' := by
        rwa [List.getLast?_cons_cons] at h
      have ihr := ih h'
      rw [rstripSlash]
      simp [ihr]

theorem getLast?_append_seg {a x : Str} (hx : isSeg x = true) :
    (a ++ x).getLast? ≠ some '/' := by
  rw [List.getLast?_append]
  cases hlast : x.getLast? with
  | none => exact absurd (List.getLast?_eq_none_iff.mp hlast) (ne_nil_of_isSeg hx)
  | some c =>
    have hmem : c ∈ x := by
      have := List.getLast?_eq_getLast x (ne_nil_of_isSeg hx)
      rw [this] at hlast
      injection hlast with hc
      rw [← hc]
      exact List.getLast_mem _
    have hc : c ≠ '/' := slashFree_of_isSeg hx c hmem
    simp [Option.or, hc]

theorem rstripSlash_tilde_seg {x : Str} (hx : isSeg x = true) :
    rstripSlash (str "~/" ++ x) = str "~/" ++ x :=
  rstripSlash_eq_self (getLast?_append_seg hx)

theorem endsSlash_tilde_seg {x : Str} (hx : isSeg x = true) :
    endsSlash (str "~/" ++ x) = false := by
  unfold endsSlash
  cases hlast : (str "~/" ++ x).getLast? with
  | none => rfl
  | some c =>
    have := getLast?_append_seg (a := str "~/") hx
    rw [hlast] at this
    have hc : c ≠ '/' := by
      intro hcc
      exact this (by rw [hcc])
    simp [hc]

theorem startsWith_tilde_segs_false {s x rest : Str}
    (hsf : ∀ c ∈ s, c ≠ '/') (hxf : ∀ c ∈ x, c ≠ '/') (hne : s ≠ x) :
    startsWith (str "~/" ++ x ++ '/' :: rest) (str "~/" ++ s ++ str "/") = false := by
  rw [Bool.eq_false_iff]
  intro hb
  rw [startsWith_iff] at hb
  rw [show str "~/" ++ s ++ str "/" = str "~/" ++ (s ++ '/' :: []) from by
        simp only [List.append_assoc]; rfl,
      show str "~/" ++ x ++ '/' :: rest = str "~/" ++ (x ++ '/' :: rest) from by
        simp only [List.append_assoc]] at hb
  rw [List.prefix_append_right_inj, seg_slash_prefix_iff hsf hxf] at hb
  exact hne hb.1

theorem tilde_seg_ne {s x rest : Str} (hsf : ∀ c ∈ s, c ≠ '/') :
    str "~/" ++ x ++ '/' :: rest ≠ str "~/" ++ s := by
  intro h
  have h' : str "~/" ++ (x ++ '/' :: rest) = str "~/" ++ s := by
    rw [← List.append_assoc]
    exact h
  have hsx : x ++ '/' :: rest = s := List.append_cancel_left h'
  refine hsf '/' ?_ rfl
  rw [← hsx]
  exact List.mem_append_right _ (by simp)

theorem startsWith_seg_close_false {s x : Str} (hs : ∀ c ∈ s, c ≠ '/') :
    startsWith (str "~/" ++ s) (str "~/" ++ x ++ str "/") = false := by
  rw [Bool.eq_false_iff]
  intro hb
  rw [startsWith_iff] at hb
  rw [show str "~/" ++ x ++ str "/" = str "~/" ++ (x ++ ['/']) from by
        simp only [List.append_assoc]; rfl] at hb
  rw [List.prefix_append_right_inj] at hb
  have hmem : '/' ∈ s := hb.subset (by simp)
  exact hs '/' hmem rfl

theorem containsSeq_exists {s pat : Str} (h : containsSeq s pat = true) :
    ∃ pre suf, s = pre ++ pat ++ suf := by
  induction s with
  | nil =>
    rw [containsSeq.eq_def] at h
    simp only [Bool.or_false] at h
    have : pat <+: [] := List.isPrefixOf_iff_prefix.mp h
    have hnil : pat = [] := List.prefix_nil.mp this
    exact ⟨[], [], by simp [hnil]⟩
  | cons c rest ih =>
    rw [containsSeq.eq_def] at h
    rcases Bool.or_eq_true_iff.mp h with h1 | h2
    · obtain ⟨t, ht⟩ := List.isPrefixOf_iff_prefix.mp h1
      exact ⟨[], t, by simp [ht]⟩
    · obtain ⟨pre, suf, hps⟩ := ih h2
      exact ⟨c :: pre, suf, by simp [hps]⟩

theorem containsSeq_src_sibling_false {s : Str} (hs : isSeg s = true) :
    containsSeq (str "src" ++ '/' :: s) (str "/lib/domains/") = false := by
  rw [Bool.eq_false_iff]
  intro hb
  obtain ⟨pre, suf, hdecomp⟩ := containsSeq_exists hb
  have hcount := congrArg (fun l => List.count '/' l) hdecomp
  have hzero : List.count '/' s = 0 :=
    List.count_eq_zero.mpr (fun hmem => slashFree_of_isSeg hs '/' hmem rfl)
  simp only [List.count_append] at hcount
  rw [show List.count '/' (str "src") = 0 from rfl] at hcount
  rw [show List.count '/' (str "/lib/domains/") = 3 from rfl] at hcount
  simp only [List.count_cons_self] at hcount
  omega

theorem is_same_domain_sibling_false (p : Str) {s : Str} (hs : isSeg s = true) :
    is_same_domain_hierarchical_import p [str "src", s] = false := by
  unfold is_same_domain_hierarchical_import
  cases hst : startsWith p (str "~/lib/domains/") with
  | false => simp
  | true =>
    have hjoin : joinSegs [str "src", s] = str "src" ++ '/' :: s := rfl
    simp only [hst, Bool.not_true, Bool.false_eq_true, if_false, hjoin,
      containsSeq_src_sibling_false hs, Bool.not_false, if_true]
    split
    · rfl
    · rfl

theorem hasDepsFile_single (q : FsPath) (d : Deps) (files : List FsPath) (p : FsPath) :
    hasDepsFile ⟨[(q, d)], files⟩ p = decide (q = p) := by
  unfold hasDepsFile lookupDeps
  cases hqp : decide (q = p) <;> simp_all [List.find?]

theorem tildeOf_src_xy (x y : Str) :
    tildeOf [str "src", x, y] = str "~/" ++ (x ++ '/' :: y) := by
  simp [tildeOf]
  rfl

theorem goes_into_grandchild {x y z : Str} (hx : isSeg x = true) (hy : isSeg y = true)
    (hz : isSeg z = true) (depsXY : Deps) (files : List FsPath) :
    import_goes_into_subsystem ⟨[([str "src", x, y], depsXY)], files⟩
      (str "~/" ++ x ++ '/' :: (y ++ '/' :: z)) = true := by
  unfold import_goes_into_subsystem
  have hst : startsWith (str "~/" ++ x ++ '/' :: (y ++ '/' :: z)) (str "~/") = true := by
    rw [List.append_assoc]
    exact startsWith_append _ _
  rw [hst]
  simp only [Bool.not_true, Bool.false_eq_true, if_false]
  show importGoesIntoAux _ _ (str "src" :: pathSegs (x ++ '/' :: (y ++ '/' :: z))) = true
  rw [pathSegs_append_sep hx, pathSegs_append_sep hy, pathSegs_single hz]
  rw [importGoesIntoAux]
  rw [if_neg (by rintro (hc | hc) <;> simp at hc)]
  have hne4 : ([str "src", x, y] : FsPath) ≠ [str "src", x, y, z] := by
    intro h
    have := congrArg List.length h
    simp at this
  rw [hasDepsFile_single, decide_eq_false hne4, if_neg (by simp)]
  show importGoesIntoAux _ _ [str "src", x, y] = true
  rw [importGoesIntoAux]
  rw [if_neg (by rintro (hc | hc) <;> simp at hc)]
  rw [hasDepsFile_single, decide_eq_true rfl, if_pos rfl]
  rw [tildeOf_src_xy]
  have hp1 : str "~/" ++ x ++ '/' :: (y ++ '/' :: z) =
      (str "~/" ++ (x ++ '/' :: y) ++ str "/") ++ z := by
    simp only [List.append_assoc, List.cons_append, List.nil_append]
    rfl
  rw [hp1]
  show (startsWith (str "~/" ++ (x ++ '/' :: y) ++ str "/" ++ z)
      ((str "~/" ++ (x ++ '/' :: y)) ++ str "/") &&
    decide (str "~/" ++ (x ++ '/' :: y) ++ str "/" ++ z ≠ str "~/" ++ (x ++ '/' :: y))) = true
  rw [startsWith_append]
  have hne : str "~/" ++ (x ++ '/' :: y) ++ str "/" ++ z ≠ str "~/" ++ (x ++ '/' :: y) := by
    intro h
    have hlen := congrArg List.length h
    simp at hlen
    exact absurd hlen.1 (by decide)
  simp only [Bool.true_and]
  exact decide_eq_true hne

theorem goes_into_child_false {x y : Str} (hx : isSeg x = true) (hy : isSeg y = true)
    (depsXY : Deps) (files : List FsPath) :
    import_goes_into_subsystem ⟨[([str "src", x, y], depsXY)], files⟩
      (str "~/" ++ x ++ '/' :: y) = false := by
  unfold import_goes_into_subsystem
  have hst : startsWith (str "~/" ++ x ++ '/' :: y) (str "~/") = true := by
    rw [List.append_assoc]
    exact startsWith_append _ _
  rw [hst]
  simp only [Bool.not_true, Bool.false_eq_true, if_false]
  show importGoesIntoAux _ _ (str "src" :: pathSegs (x ++ '/' :: y)) = false
  rw [pathSegs_append_sep hx, pathSegs_single hy]
  rw [importGoesIntoAux]
  rw [if_neg (by rintro (hc | hc) <;> simp at hc)]
  rw [hasDepsFile_single, decide_eq_true rfl, if_pos rfl]
  rw [tildeOf_src_xy]
  have hp2 : str "~/" ++ x ++ '/' :: y = str "~/" ++ (x ++ '/' :: y) :=
    List.append_assoc _ _ _
  rw [hp2]
  show (startsWith (str "~/" ++ (x ++ '/' :: y))
      ((str "~/" ++ (x ++ '/' :: y)) ++ str "/") &&
    decide (str "~/" ++ (x ++ '/' :: y) ≠ str "~/" ++ (x ++ '/' :: y))) = false
  simp

theorem tilde_append_ne_nil (x : Str) : str "~/" ++ x ≠ [] := by
  intro h
  have hlen := congrArg List.length h
  rw [List.length_append, show (str "~/").length = 2 from rfl] at hlen
  simp at hlen

theorem append_cons_ne_self (a : Str) (c : Char) (t : Str) : a ++ c :: t ≠ a := by
  intro h
  have hlen := congrArg List.length h
  simp at hlen

theorem startsWith_two_segs_libdomains_false {x y : Str} (hx : isSeg x = true)
    (hy : isSeg y = true) :
    startsWith (str "~/" ++ x ++ '/' :: y) (str "~/lib/domains/") = false := by
  rw [Bool.eq_false_iff]
  intro hb
  rw [startsWith_iff] at hb
  rw [show (str "~/lib/domains/" : Str) =
      str "~/" ++ (str "lib" ++ '/' :: (str "domains" ++ '/' :: [])) from rfl,
    show str "~/" ++ x ++ '/' :: y = str "~/" ++ (x ++ '/' :: y) from
      List.append_assoc _ _ _] at hb
  rw [List.prefix_append_right_inj,
    seg_slash_prefix_iff (by decide) (slashFree_of_isSeg hx)] at hb
  have hmem : '/' ∈ y := hb.2.subset (by simp)
  exact slashFree_of_isSeg hy '/' hmem rfl

theorem domainUtilsRegexMatch_two_segs_false {x y : Str} (hx : isSeg x = true)
    (hy : isSeg y = true) :
    domainUtilsRegexMatch (str "~/" ++ x ++ '/' :: y) = false := by
  unfold domainUtilsRegexMatch
  rw [startsWith_two_segs_libdomains_false hx hy]
  rfl

theorem domainUtilsRegexMatch_three_segs_false {x y z : Str} (hx : isSeg x = true)
    (hy : isSeg y = true) (hz : isSeg z = true) :
    domainUtilsRegexMatch (str "~/" ++ x ++ '/' :: (y ++ '/' :: z)) = false := by
  unfold domainUtilsRegexMatch
  cases hst : startsWith (str "~/" ++ x ++ '/' :: (y ++ '/' :: z))
      (str "~/lib/domains/") with
  | false => rfl
  | true =>
    rw [startsWith_iff] at hst
    rw [show (str "~/lib/domains/" : Str) =
        str "~/" ++ (str "lib" ++ '/' :: (str "domains" ++ '/' :: [])) from rfl,
      show str "~/" ++ x ++ '/' :: (y ++ '/' :: z) =
        str "~/" ++ (x ++ '/' :: (y ++ '/' :: z)) from List.append_assoc _ _ _] at hst
    rw [List.prefix_append_right_inj,
      seg_slash_prefix_iff (by decide) (slashFree_of_isSeg hx)] at hst
    obtain ⟨hxl, hst2⟩ := hst
    rw [seg_slash_prefix_iff (by decide) (slashFree_of_isSeg hy)] at hst2
    obtain ⟨hyd, -⟩ := hst2
    have hdrop : (str "~/" ++ x ++ '/' :: (y ++ '/' :: z)).drop 14 = z := by
      rw [← hxl, ← hyd]
      rw [show str "~/" ++ str "lib" ++ '/' :: (str "domains" ++ '/' :: z) =
          str "~/lib/domains/" ++ z from by simp only [List.append_assoc]; rfl]
      exact List.drop_left' (by rfl)
    rw [hdrop, splitOnChar_free (slashFree_of_isSeg hz)]
    rfl

theorem matchesDomainUtilsPattern_false_of_regex {p : Str}
    (h : domainUtilsRegexMatch p = false) : matchesDomainUtilsPattern p = false := by
  unfold matchesDomainUtilsPattern
  rw [h]
  simp

theorem entryAllows_grandchild_false {x y z s : Str} (hx : isSeg x = true)
    (hy : isSeg y = true) (hz : isSeg z = true) (hs : isSeg s = true) (hne : s ≠ x)
    (depsXY : Deps) (files : List FsPath) :
    entryAllows ⟨[([str "src", x, y], depsXY)], files⟩
      (str "~/" ++ x ++ '/' :: (y ++ '/' :: z)) [str "src", s] (str "~/" ++ s)
      (str "~/" ++ x) = false := by
  unfold entryAllows
  rw [if_neg (tilde_append_ne_nil x),
    if_neg (append_cons_ne_self (str "~/" ++ x) '/' (y ++ '/' :: z))]
  have hp1 : str "~/" ++ x ++ '/' :: (y ++ '/' :: z) =
      (str "~/" ++ x ++ str "/") ++ (y ++ '/' :: z) := by
    simp only [List.append_assoc]
    rfl
  have f5 : startsWith (str "~/" ++ x ++ '/' :: (y ++ '/' :: z))
      (str "~/" ++ x ++ str "/") = true := by
    rw [hp1]
    exact startsWith_append _ _
  simp only [rstripSlash_tilde_seg hx, endsSlash_tilde_seg hx, f5, Bool.false_and,
    Bool.or_false, Bool.false_eq_true, if_false, if_true]
  have f9 := goes_into_grandchild hx hy hz depsXY files
  have f10 := @startsWith_tilde_segs_false s x (y ++ '/' :: z)
    (slashFree_of_isSeg hs) (slashFree_of_isSeg hx) hne
  have f11 := startsWith_seg_close_false (x := x) (slashFree_of_isSeg hs)
  have f12 := is_same_domain_sibling_false
    (str "~/" ++ x ++ '/' :: (y ++ '/' :: z)) hs
  have f6 : List.drop (List.length (str "~/" ++ x ++ str "/"))
      (str "~/" ++ x ++ '/' :: (y ++ '/' :: z)) = y ++ '/' :: z := by
    rw [hp1]
    exact List.drop_left _ _
  rw [f6, if_neg (by simp : ¬(y ++ '/' :: z = [])), f9, f10, f11, f12]
  simp

theorem entryAllows_child_true {x y s : Str} (hx : isSeg x = true)
    (hy : isSeg y = true)
    (depsXY : Deps) (files : List FsPath) :
    entryAllows ⟨[([str "src", x, y], depsXY)], files⟩
      (str "~/" ++ x ++ '/' :: y) [str "src", s] (str "~/" ++ s)
      (str "~/" ++ x) = true := by
  unfold entryAllows
  rw [if_neg (tilde_append_ne_nil x),
    if_neg (append_cons_ne_self (str "~/" ++ x) '/' y)]
  have hp2 : str "~/" ++ x ++ '/' :: y = (str "~/" ++ x ++ str "/") ++ y := by
    simp only [List.append_assoc]
    rfl
  have f5 : startsWith (str "~/" ++ x ++ '/' :: y) (str "~/" ++ x ++ str "/") = true := by
    rw [hp2]
    exact startsWith_append _ _
  simp only [rstripSlash_tilde_seg hx, endsSlash_tilde_seg hx, f5, Bool.false_and,
    Bool.or_false, Bool.false_eq_true, if_false, if_true]
  have f6 : List.drop (List.length (str "~/" ++ x ++ str "/"))
      (str "~/" ++ x ++ '/' :: y) = y := by
    rw [hp2]
    exact List.drop_left _ _
  have f9 := goes_into_child_false hx hy depsXY files
  rw [f6, if_neg (ne_nil_of_isSeg hy), f9]
  simp only [Bool.false_and, Bool.false_eq_true, if_false]
  have fseg : startsWith (str "~/" ++ x) (str "~/") = true := startsWith_append _ _
  rw [fseg]
  have fdrop : List.drop 2 (str "~/" ++ x) = x := List.drop_left' (by rfl)
  rw [if_pos rfl, fdrop, pathSegs_single hx, pathSegs_single hy]
  have fcount : List.count '/' y = 0 :=
    List.count_eq_zero.mpr (fun hmem => slashFree_of_isSeg hy '/' hmem rfl)
  rw [fcount]
  have fdeps : hasDepsFile ⟨[([str "src", x, y], depsXY)], files⟩
      (str "src" :: [x] ++ [y]) = true := by
    rw [hasDepsFile_single]
    simp
  rw [fdeps]
  simp

/-- Claim C1: grandchild re-block.  With `~/X` the allowed entry and `src/X/Y`
a declared subsystem, an import issued from a sibling subsystem `src/S`
(outside `~/X/Y`) targeting `~/X/Y/Z` — two segments past the allowed entry,
crossing into the nested subsystem — is DENY, while an import targeting
exactly `~/X/Y` — one segment past — is ALLOW. -/
theorem grandchild_reblock (x y z s : Str) (depsXY : Deps) (files : List FsPath)
    (hx : isSeg x = true) (hy : isSeg y = true) (hz : isSeg z = true)
    (hs : isSeg s = true) (hne : s ≠ x) :
    is_import_allowed_by_set ⟨[([str "src", x, y], depsXY)], files⟩
      (str "~/" ++ x ++ '/' :: (y ++ '/' :: z)) [str "~/" ++ x] [str "src", s] = false ∧
    is_import_allowed_by_set ⟨[([str "src", x, y], depsXY)], files⟩
      (str "~/" ++ x ++ '/' :: y) [str "~/" ++ x] [str "src", s] = true := by
  have hsub : subsystemAbsOf [str "src", s] = str "~/" ++ s := by
    unfold subsystemAbsOf
    rw [if_neg (by simp)]
    rfl
  constructor
  · refine is_import_allowed_eq_false ?_ ?_ ?_ ?_
    · rw [hsub]
      exact startsWith_tilde_segs_false (slashFree_of_isSeg hs)
        (slashFree_of_isSeg hx) hne
    · rw [hsub]
      exact tilde_seg_ne (slashFree_of_isSeg hs)
    · exact matchesDomainUtilsPattern_false_of_regex
        (domainUtilsRegexMatch_three_segs_false hx hy hz)
    · intro d hd
      rw [List.mem_singleton] at hd
      subst hd
      rw [hsub]
      exact entryAllows_grandchild_false hx hy hz hs hne depsXY files
  · refine is_import_allowed_of_entry (List.mem_singleton_self _) ?_
    rw [hsub]
    exact entryAllows_child_true hx hy depsXY files

/-- Witness for C1 at a concrete input: allowed entry `~/widgets`,
nested subsystem `src/widgets/panel`, importer `src/app`. -/
theorem grandchild_reblock_witness :
    is_import_allowed_by_set
      ⟨[([str "src", str "widgets", str "panel"], Deps.empty)], []⟩
      (str "~/" ++ str "widgets" ++ '/' :: (str "panel" ++ '/' :: str "internal"))
      [str "~/" ++ str "widgets"] [str "src", str "app"] = false ∧
    is_import_allowed_by_set
      ⟨[([str "src", str "widgets", str "panel"], Deps.empty)], []⟩
      (str "~/" ++ str "widgets" ++ '/' :: str "panel")
      [str "~/" ++ str "widgets"] [str "src", str "app"] = true := by
  apply grandchild_reblock <;> decide
